import Mathlib

/-!
Shallow embedding of the caldav-web task application (src/app.py,
src/models.py, src/caldav_client.py) for checking its specification.

Conventions of the embedding:
* Python dicts mapping task uid to task data are association lists with
  distinct keys (`TaskMap`); iteration order is list order, matching the
  insertion-ordered iteration of Python dicts.
* Python `None` is `Option.none`; Python string truthiness (`if s:`) is
  the test `s ≠ ""` on the wrapped string.
* Exceptions are `Except String`; an uncaught exception aborts the
  computation, which is exactly how `Except.error` propagates below.
* Wall-clock timestamps are abstracted as natural numbers passed in.
-/

namespace CaldavWeb

abbrev Uid := String

/-- Projection of the per-task dictionaries handled by
`CalDAVClient._validate_task_hierarchy` onto the one field the function
reads and writes: `parent_uid` (an `Option Uid`).  A `TaskMap` is the
Python dict `task_map` as an insertion-ordered association list. -/
abbrev TaskMap := List (Uid × Option Uid)

/-- Key list of the dict (`task_map.keys()`), in iteration order. -/
def keys (m : TaskMap) : List Uid := m.map Prod.fst

/-- Dictionary lookup: `task_map[u]` as an option (outer `none` when the
uid is not a key; the inner option is the stored `parent_uid`). -/
def lookupUid : TaskMap → Uid → Option (Option Uid)
  | [], _ => none
  | (k, p) :: t, u => if k = u then some p else lookupUid t u

/-- The parent reached from uid `u` in one step:
`task_map[u].get('parent_uid')`, with `none` when `u` is not a key. -/
def chainU (m : TaskMap) (u : Uid) : Option Uid :=
  match lookupUid m u with
  | some p => p
  | none => none

/-- One step of the parent chain, lifted to `Option Uid`. -/
def chainStep (m : TaskMap) : Option Uid → Option Uid
  | none => none
  | some u => chainU m u

/-- The uid reached from `u` after `k` steps of the parent chain. -/
def chainIter (m : TaskMap) (k : Nat) (u : Uid) : Option Uid :=
  (chainStep m)^[k] (some u)

/-- Value-only update of every entry of the dict (keys unchanged). -/
def mapVal (f : Uid → Option Uid → Option Uid) (m : TaskMap) : TaskMap :=
  m.map fun e => (e.1, f e.1 e.2)

/-- First pass of `_validate_task_hierarchy` (caldav_client.py 267-273):
for each task, `if parent_uid and parent_uid not in task_map:
task['parent_uid'] = None`.  Note the Python truthiness test: an
empty-string parent is skipped, not repaired. -/
def removeDangling (m : TaskMap) : TaskMap :=
  mapVal (fun _ p =>
    match p with
    | some q => if q ≠ "" ∧ q ∉ keys m then none else some q
    | none => none) m

/-- The inner recursion of `has_cycle` (caldav_client.py 276-290).  The
Python function terminates because `visited` grows inside the key set;
the embedding carries explicit fuel, set to `m.length + 1` at the call
site, which the same argument shows is never exhausted. -/
def hasCycleAux (m : TaskMap) (start : Uid) : Nat → Option Uid → List Uid → Bool
  | 0, _, _ => false
  | _ + 1, none, _ => false
  | fuel + 1, some c, visited =>
    if c = start then true
    else if c ∈ visited then false
    else
      match lookupUid m c with
      | none => false
      | some p => hasCycleAux m start fuel p (c :: visited)

/-- Entry point `has_cycle(start_uid, current_uid, set())`. -/
def has_cycle (m : TaskMap) (start : Uid) (cur : Option Uid) : Bool :=
  hasCycleAux m start (m.length + 1) cur []

/-- Set `task_map[v]['parent_uid'] = None`. -/
def setParentNone (v : Uid) (m : TaskMap) : TaskMap :=
  mapVal (fun k p => if k = v then none else p) m

/-- One iteration of the second pass of `_validate_task_hierarchy`
(caldav_client.py 292-297): `if parent_uid and has_cycle(uid,
parent_uid, set()): task['parent_uid'] = None`, reading from and
writing to the live map. -/
def pass2Step (m : TaskMap) (v : Uid) : TaskMap :=
  match lookupUid m v with
  | some (some p) =>
      if p ≠ "" ∧ has_cycle m v (some p) = true then setParentNone v m else m
  | _ => m

/-- The whole of `CalDAVClient._validate_task_hierarchy`
(caldav_client.py 255-302): remove references to non-existent parents,
then break cycles, visiting keys in dict order. -/
def validate_task_hierarchy (m : TaskMap) : TaskMap :=
  let m1 := removeDangling m
  (keys m1).foldl pass2Step m1

/-- Statement of the edge `u -> p` ("task u's parent_uid is p"). -/
def parentRel (m : TaskMap) (u p : Uid) : Prop :=
  lookupUid m u = some (some p)

/-- Every non-null parent_uid resolves to a key of the batch. -/
def resolvesInMap (m : TaskMap) : Prop :=
  ∀ u p, parentRel m u p → p ∈ keys m

/-- No parent-chain cycle: no uid returns to itself after k > 0 steps. -/
def acyclicMap (m : TaskMap) : Prop :=
  ∀ u k, 0 < k → chainIter m k u ≠ some u

/-- A concrete parent path from `a` through the listed uids to `b`. -/
def chainList (m : TaskMap) : Uid → List Uid → Uid → Prop
  | a, [], b => chainU m a = some b
  | a, c :: cs, b => chainU m a = some c ∧ chainList m c cs b

/-- Some parent path leads from `v` back to `v`. -/
def CycThrough (m : TaskMap) (v : Uid) : Prop := ∃ l, chainList m v l v

/-- Map `m'` has a subset of the parent edges of `m`. -/
def edgeSub (m' m : TaskMap) : Prop := ∀ u p, parentRel m' u p → parentRel m u p

/-- No stored parent_uid is the empty string. -/
def noEmptyEntries (m : TaskMap) : Prop := ∀ e ∈ m, e.2 ≠ some ""

/-! ## Sync state of a local task (src/models.py) -/

/-- The sync-tracking slice of the `Task` model (models.py 33-36). -/
structure SyncState where
  is_synced : Bool
  op : Option String
  sync_attempts : Nat
  deriving Repr, DecidableEq

/-- Method `Task.mark_for_sync` (models.py 113-118). -/
def mark_for_sync (operat : String) (_s : SyncState) : SyncState :=
  { is_synced := false, op := some operat, sync_attempts := 0 }

/-- Method `Task.mark_synced` (models.py 120-125). -/
def mark_synced (_s : SyncState) : SyncState :=
  { is_synced := true, op := none, sync_attempts := 0 }

/-- Method `Task.increment_sync_attempts` (models.py 127-129). -/
def increment_sync_attempts (s : SyncState) : SyncState :=
  { s with sync_attempts := s.sync_attempts + 1 }

/-! ## The PATCH /tasks/<uid> sync transition (src/app.py 446-470) -/

/-- Result of `handle_caldav_error(func, ...)` (app.py 96-103): the pair
`(func(...), None)` on success and `(None, str(e))` when `func` raised.
The wrapped function's own Python return value is an `Option α`
(`client.update_task` has no return statement, hence returns `None`). -/
def handle_caldav_error (o : Except String (Option α)) : Option α × Option String :=
  match o with
  | .ok v => (v, none)
  | .error e => (none, some e)

/-- The sync bookkeeping of the PATCH /tasks/<uid> route (app.py
446-468) once at least one field changed: call `client.update_task`
through `handle_caldav_error`, then `if result: task.mark_synced()
else: task.mark_for_sync('update')`.  `remote` is `none` when the
CalDAV client is unavailable, otherwise the outcome of
`client.update_task` (whose Python return value is always `None`). -/
def app_update_task_sync (remote : Option (Except String (Option Unit)))
    (s : SyncState) : SyncState :=
  match remote with
  | none => mark_for_sync "update" s
  | some o =>
      let r := handle_caldav_error o
      if r.1.isSome then mark_synced s else mark_for_sync "update" s

/-! ## Priority decoding in `_parse_vtodo_safely` (caldav_client.py 204-210) -/

/-- Accumulator loop reading decimal digits; any non-digit character
makes the conversion fail. -/
def natDigitsAux : List Char → Nat → Option Nat
  | [], acc => some acc
  | c :: cs, acc =>
      if c.isDigit then natDigitsAux cs (acc * 10 + (c.toNat - 48)) else none

/-- Decimal digit-string to natural number; empty input fails. -/
def natDigits : List Char → Option Nat
  | [] => none
  | c :: cs => natDigitsAux (c :: cs) 0

/-- Python `int(s)` on the string value of a wire property, as far as
decimal literals go (`"15"`, `"0"`, `"-3"` convert; `"abc"` does not). -/
def pyIntOfString (s : String) : Option Int :=
  match s.data with
  | [] => none
  | c :: cs =>
      if c = Char.ofNat 45 then (natDigits cs).map (fun n => -(n : Int))
      else (natDigits (c :: cs)).map (fun n => (n : Int))

/-- The priority block of `_parse_vtodo_safely` (caldav_client.py
204-210): absent stays absent; otherwise coerce with `int(...)` and
clamp via `max(1, min(9, priority))`; a coercion failure yields `None`. -/
def parse_vtodo_priority (raw : Option String) : Option Int :=
  match raw with
  | none => none
  | some s =>
      match pyIntOfString s with
      | some n => some (max 1 (min 9 n))
      | none => none

/-! ## Wire records: property lists of a VTODO component -/

/-- Value of a VTODO property as held by the vobject tree before
serialization: a Python `str`, `int`, `datetime` (abstracted to its
timestamp), or `None`. -/
inductive PropVal where
  | pstr : String → PropVal
  | pint : Int → PropVal
  | pdate : Nat → PropVal
  | pnone : PropVal
  deriving Repr, DecidableEq

/-- Property list of a VTODO component, names in canonical upper case,
in the component's child order. -/
abbrev VTodo := List (String × PropVal)

/-- First property of the given name, as vobject attribute access. -/
def lookupProp : VTodo → String → Option PropVal
  | [], _ => none
  | (k, v) :: t, n => if k = n then some v else lookupProp t n

/-- Whether the component has a property of the name (`hasattr`). -/
def hasProp (l : VTodo) (n : String) : Bool := l.any fun e => e.1 = n

/-- Assignment `vtodo.<attr>.value = v` when the property exists (the
attribute denotes the first instance, which is updated in place) and
`vtodo.add(n).value = v` (append) otherwise. -/
def setPropFirst : VTodo → String → PropVal → VTodo
  | [], n, v => [(n, v)]
  | (k, w) :: t, n, v => if k = n then (k, v) :: t else (k, w) :: setPropFirst t n v

/-- Removal `vtodo.remove(vtodo.<attr>)` of the first instance. -/
def removePropFirst : VTodo → String → VTodo
  | [], _ => []
  | (k, w) :: t, n => if k = n then t else (k, w) :: removePropFirst t n

/-- Removal loop over `list(vtodo.getChildren())` dropping every
property of the given name. -/
def removePropAll (l : VTodo) (n : String) : VTodo := l.filter fun e => e.1 ≠ n

/-- Wire property names typed as integers (caldav_client.py 583). -/
def integer_properties : List String := ["PRIORITY", "PERCENT-COMPLETE", "SEQUENCE"]

/-- Wire property names typed as datetimes (caldav_client.py 584). -/
def datetime_properties : List String :=
  ["DUE", "DTSTART", "DTEND", "CREATED", "DTSTAMP", "COMPLETED", "LAST-MODIFIED"]

/-- Rendering `str(value)` of an abstracted datetime. -/
def dateToStr (t : Nat) : String := "datetime:" ++ toString t

/-- Per-property action of `_validate_and_fix_vtodo_properties`
(caldav_client.py 564-631): `none` removes the property, `some`
replaces its value.  `None` values are removed; integer-typed
properties are coerced to decimal strings (a non-coercible value is
removed); datetime-typed properties keep datetime values and drop
values without a `year` attribute; every other property is coerced to
`str`. -/
def fixProp (e : String × PropVal) : Option (String × PropVal) :=
  match e.2 with
  | PropVal.pnone => none
  | v =>
      if e.1 ∈ integer_properties then
        match v with
        | PropVal.pint n => some (e.1, PropVal.pstr (toString n))
        | PropVal.pstr s => some (e.1, PropVal.pstr s)
        | _ => none
      else if e.1 ∈ datetime_properties then
        match v with
        | PropVal.pdate t => some (e.1, PropVal.pdate t)
        | _ => none
      else
        match v with
        | PropVal.pstr s => some (e.1, PropVal.pstr s)
        | PropVal.pint n => some (e.1, PropVal.pstr (toString n))
        | PropVal.pdate t => some (e.1, PropVal.pstr (dateToStr t))
        | PropVal.pnone => none

/-- `_validate_and_fix_vtodo_properties` applied to the whole child
list (collect fixes, then apply removals and updates). -/
def validate_and_fix_vtodo_properties (l : VTodo) : VTodo := l.filterMap fixProp

/-! ## `_create_vtodo` (caldav_client.py 435-514) -/

/-- The VTODO property list built by `_create_vtodo` for a new task:
uid, summary, timestamps, status, then the optional parent, description,
due and priority.  The incoming priority is pre-clamped to 1-9
(caldav_client.py 448-456) and then stored with
`vtodo.vtodo.add('priority').value = int(priority)` — a raw integer
(caldav_client.py 511-512).  `now` abstracts `datetime.now(...)`. -/
def create_vtodo (now : Nat) (summary uid : String)
    (parent_uid descr : Option String) (hasDue : Bool)
    (priority : Option Int) : VTodo :=
  let prio := priority.map fun n => max 1 (min 9 n)
  [("UID", PropVal.pstr uid), ("SUMMARY", PropVal.pstr summary),
   ("DTSTAMP", PropVal.pdate now), ("CREATED", PropVal.pdate now),
   ("STATUS", PropVal.pstr "NEEDS-ACTION")]
  ++ (match parent_uid with
      | some p => if p ≠ "" then [("RELATED-TO", PropVal.pstr p)] else []
      | none => [])
  ++ (match descr with
      | some d => if d.trim ≠ "" then [("DESCRIPTION", PropVal.pstr d.trim)] else []
      | none => [])
  ++ (if hasDue then [("DUE", PropVal.pdate now)] else [])
  ++ (match prio with
      | some n => [("PRIORITY", PropVal.pint n)]
      | none => [])

/-! ## Completion handling in `CalDAVClient.update_task` (caldav_client.py 728-790) -/

/-- The completion-status slice of `CalDAVClient.update_task` when a
`completed` flag is supplied (caldav_client.py 728-765), followed by
the last-modified stamp (767-773) and the property validation pass run
before serialization (775-779).  `now` abstracts the two calls to
`datetime.now(timezone.utc)`. -/
def client_update_task_completion (now : Nat) (completed : Bool) (vt : VTodo) : VTodo :=
  let vt1 := setPropFirst vt "STATUS"
    (PropVal.pstr (if completed then "COMPLETED" else "NEEDS-ACTION"))
  let vt2 :=
    if completed then
      let a := setPropFirst vt1 "COMPLETED" (PropVal.pdate now)
      let b := removePropAll a "PERCENT-COMPLETE"
      b ++ [("PERCENT-COMPLETE", PropVal.pstr "100")]
    else
      let a := if hasProp vt1 "COMPLETED" then removePropFirst vt1 "COMPLETED" else vt1
      let b := removePropAll a "PERCENT-COMPLETE"
      b ++ [("PERCENT-COMPLETE", PropVal.pstr "0")]
  let vt3 := setPropFirst vt2 "LAST-MODIFIED" (PropVal.pdate now)
  validate_and_fix_vtodo_properties vt3

/-! ## The retry decorator (caldav_client.py 31-52) -/

/-- Outcome of one invocation of the wrapped function: a return value,
an exception of a transient class (ConnectionError / TimeoutError /
PropfindError), or any other exception. -/
inductive CallOutcome (α : Type) where
  | ok : α → CallOutcome α
  | transient : String → CallOutcome α
  | fatal : String → CallOutcome α

/-- The retry loop of `retry_on_failure` (caldav_client.py 35-50),
attempt `idx` running with `remaining` loop iterations left.  Returns
the overall result, the number of invocations made, and the list of
sleep durations requested (in order).  A transient failure on any but
the last iteration sleeps `delay * 2 ** attempt` and retries; on the
last iteration the loop ends and `CalDAVConnectionError` is raised; a
non-transient exception is re-raised at once. -/
def retryAux (f : Nat → CallOutcome α) (delay : ℚ) :
    Nat → Nat → Except String α × Nat × List ℚ
  | 0, _ => (Except.error "CalDAVConnectionError: failed after all attempts", 0, [])
  | remaining + 1, idx =>
      match f idx with
      | CallOutcome.ok v => (Except.ok v, 1, [])
      | CallOutcome.transient _ =>
          if remaining = 0 then
            (Except.error "CalDAVConnectionError: failed after all attempts", 1, [])
          else
            let r := retryAux f delay remaining (idx + 1)
            (r.1, r.2.1 + 1, delay * 2 ^ idx :: r.2.2)
      | CallOutcome.fatal e => (Except.error e, 1, [])

/-- A call wrapped by `retry_on_failure(max_retries, delay)`: run the
loop from attempt 0. -/
def retry_on_failure (max_retries : Nat) (delay : ℚ) (f : Nat → CallOutcome α) :
    Except String α × Nat × List ℚ :=
  retryAux f delay max_retries 0

/-! ## The /push_pending route (src/app.py 546-615) -/

/-- The slice of a local `Task` row that `push_pending` manipulates. -/
structure PTask where
  uid : Uid
  operat : Option String
  sync_attempts : Nat
  is_synced : Bool
  deriving Repr, DecidableEq

/-- Remote behaviour the push loop runs against: `client.create_task`
(returning the new uid), `client.get_task_by_uid` (whether the todo is
found), `client.update_task` and `client.delete_task`.  Each `Except`
error stands for a raised exception. -/
structure PushRemote where
  createTask : PTask → Except String String
  findTodo : Uid → Bool
  updateTask : PTask → Except String Unit
  deleteTask : Uid → Except String Unit

/-- Applying `Task.mark_synced` to the push slice. -/
def pMarkSynced (t : PTask) : PTask :=
  { t with is_synced := true, operat := none, sync_attempts := 0 }

/-- One iteration of the push loop (app.py 564-599), exactly as the
code stands: the surrounding `try/except` is commented out, so any
exception propagates (`Except.error`).  `some t` keeps the updated
task, `none` means the row was deleted from the session. -/
def pushOne (r : PushRemote) (t : PTask) : Except String (Option PTask) :=
  if t.operat = some "create" then
    match r.createTask t with
    | .error e => .error e
    | .ok newUid =>
        let t1 := if newUid ≠ "" then { t with uid := newUid } else t
        .ok (some (pMarkSynced t1))
  else if t.operat = some "update" then
    if r.findTodo t.uid then
      match r.updateTask t with
      | .error e => .error e
      | .ok _ => .ok (some (pMarkSynced t))
    else .error ("Task " ++ t.uid ++ " not found in remote calendar")
  else if t.operat = some "delete" then
    match r.deleteTask t.uid with
    | .error e => .error e
    | .ok _ => .ok none
  else .ok (some (pMarkSynced t))

/-- The whole push loop over the unsynced tasks, returning the surviving
rows, the `pushed` counter and the `errors` list of the JSON response.
An `Except.error` is the uncaught exception aborting the request (the
commit at app.py 608 is never reached and Flask answers 500). -/
def push_pending (r : PushRemote) : List PTask → Except String (List PTask × Nat × List String)
  | [] => .ok ([], 0, [])
  | t :: ts =>
      match pushOne r t with
      | .error e => .error e
      | .ok ot =>
          match push_pending r ts with
          | .error e => .error e
          | .ok (ts', n, errs) =>
              .ok ((match ot with | some t' => t' :: ts' | none => ts'), n + 1, errs)

/-! ## Pull statistics: `get_all_tasks` and `sync_tasks_to_db` -/

/-- Decoded record slice needed by the pull statistics: the uid and the
parent reference. -/
structure TaskData where
  uid : Uid
  parent_uid : Option Uid
  deriving Repr, DecidableEq

/-- The fetch-and-decode loop of `get_all_tasks` (caldav_client.py
229-249): each raw todo either decodes (`some`) or fails
(`_parse_vtodo_safely` returned `None` or raised), in which case the
local counter `parse_errors` is incremented and the record skipped.
Returns `(task_dicts, parse_errors)`. -/
def get_all_tasks_impl : List (Option TaskData) → List TaskData × Nat
  | [] => ([], 0)
  | o :: t =>
      let r := get_all_tasks_impl t
      match o with
      | some d => (d :: r.1, r.2)
      | none => (r.1, r.2 + 1)

/-- The value `get_all_tasks` actually returns (caldav_client.py 249):
only `task_dicts`; `parse_errors` is logged and dropped. -/
def get_all_tasks (todos : List (Option TaskData)) : List TaskData :=
  (get_all_tasks_impl todos).1

/-- The statistics dictionary of `sync_tasks_to_db`
(caldav_client.py 314-321). -/
structure SyncStats where
  total_fetched : Nat
  created : Nat
  updated : Nat
  errors : Nat
  hierarchy_fixes : Nat
  deriving Repr, DecidableEq

/-- Left-to-right accumulation of the dict comprehension: a repeated
uid overwrites the stored value in place, a fresh uid is appended. -/
def mkTaskMapAux (acc : List (Uid × TaskData)) : List TaskData → List (Uid × TaskData)
  | [] => acc
  | d :: t =>
      if acc.any (fun e => e.1 = d.uid) then
        mkTaskMapAux (acc.map fun e => if e.1 = d.uid then (e.1, d) else e) t
      else mkTaskMapAux (acc ++ [(d.uid, d)]) t

/-- Dict comprehension `{task['uid']: task for task in tasks}`: later
entries overwrite earlier ones in place; key order is first occurrence. -/
def mkTaskMapData (l : List TaskData) : List (Uid × TaskData) :=
  mkTaskMapAux [] l

/-- The db loop body outcomes of `sync_tasks_to_db` (caldav_client.py
337-376) folded into counters: `existing` tells whether the local row
exists (created vs updated), `dbFail` stands for an exception raised by
the per-task database block, which increments `errors` and skips the
task. -/
def syncDbCounters (existing dbFail : Uid → Bool) :
    List (Uid × TaskData) → Nat × Nat × Nat
  | [] => (0, 0, 0)
  | (u, _) :: t =>
      let r := syncDbCounters existing dbFail t
      if dbFail u then (r.1, r.2.1, r.2.2 + 1)
      else if existing u then (r.1, r.2.1 + 1, r.2.2)
      else (r.1 + 1, r.2.1, r.2.2)

/-- The `sync_stats` dictionary returned by `sync_tasks_to_db`
(caldav_client.py 304-388): `total_fetched` is the length of the
decoded list, decode failures appear in no field, `errors` counts only
database failures, and `hierarchy_fixes` is initialised to 0 and never
updated.  The `_validate_task_hierarchy` call between building the map
and the database loop (line 334, embedded as
`validate_task_hierarchy`) rewrites only `parent_uid` values and keeps
the key set and iteration order, so it cannot change any of these
counters and is elided from this statistics slice. -/
def sync_tasks_to_db_stats (todos : List (Option TaskData))
    (existing dbFail : Uid → Bool) : SyncStats :=
  let tasks := get_all_tasks todos
  if tasks.isEmpty then
    { total_fetched := 0, created := 0, updated := 0, errors := 0, hierarchy_fixes := 0 }
  else
    let m := mkTaskMapData tasks
    let c := syncDbCounters existing dbFail m
    { total_fetched := tasks.length, created := c.1, updated := c.2.1,
      errors := c.2.2, hierarchy_fixes := 0 }

/-! ## The POST /tasks route (src/app.py 244-338) and Task validators -/

/-- Python `str.strip()`: drop leading and trailing whitespace. -/
def pyStrip (s : String) : String :=
  String.mk (((s.data.dropWhile Char.isWhitespace).reverse.dropWhile
    Char.isWhitespace).reverse)

/-- The request-validation check of the route (app.py 272-279): a
priority is rejected with HTTP 400 iff `priority < 0 or priority > 9`. -/
def api_priority_ok (p : Int) : Bool := !(p < 0 || p > 9)

/-- Validator `Task.validate_priority` (models.py 56-66) on an integer
input: accepts `None`, otherwise requires `1 <= priority <= 9` and
raises `ValueError` outside that range. -/
def model_validate_priority : Option Int → Except String (Option Int)
  | none => .ok none
  | some n =>
      if 1 ≤ n ∧ n ≤ 9 then .ok (some n)
      else .error "Priority must be between 1 and 9"

/-- The locally persisted row of a successful POST /tasks. -/
structure LocalTask where
  uid : Uid
  summary : String
  priority : Option Int
  is_synced : Bool
  operat : Option String
  deriving Repr, DecidableEq

/-- Continuation of POST /tasks after request validation (app.py
287-333): CalDAV attempt through `handle_caldav_error`, then local
`Task(...)` construction (running the model validators) and commit;
a validator `ValueError` reaches the handler at app.py 335-338, which
rolls back and answers 500. -/
def createTaskBody (s : String) (p : Option Int)
    (clientOutcome : Option (Except String String)) (freshUid : Uid) :
    Nat × Option LocalTask :=
  let remote : Uid × Bool × Option String :=
    match clientOutcome with
    | none => (freshUid, false, some "create")
    | some (.ok newUid) =>
        if newUid ≠ "" then (newUid, true, none) else (freshUid, false, some "create")
    | some (.error _) => (freshUid, false, some "create")
  match model_validate_priority p with
  | .error _ => (500, none)
  | .ok p' =>
      (201, some { uid := remote.1, summary := s, priority := p',
                   is_synced := remote.2.1, operat := remote.2.2 })

/-- The POST /tasks route (app.py 244-338), sliced to summary and
priority handling with no parent and no due date.  `clientOutcome` is
`none` when the CalDAV client is unavailable and otherwise the outcome
of `client.create_task` (new uid on success).  Returns the HTTP status
code and the row committed locally (`none` when the transaction was
rolled back). -/
def create_task_route (summary : String) (priority : Option Int)
    (clientOutcome : Option (Except String String)) (freshUid : Uid) :
    Nat × Option LocalTask :=
  let s := pyStrip summary
  if s = "" then (400, none)
  else
    match priority with
    | some p =>
        if !api_priority_ok p then (400, none)
        else createTaskBody s (some p) clientOutcome freshUid
    | none => createTaskBody s none clientOutcome freshUid

/-! ## Concrete fixtures used by witnesses and counterexamples -/

/-- Return value of `client.update_task`: the Python function has no
return statement, so its value is `None` whatever happened; an
exception is passed through. -/
def client_update_task_result : Except String Unit → Except String (Option Unit)
  | .ok _ => .ok none
  | .error e => .error e

/-- A remote where every looked-up todo is missing. -/
def remoteNotFound : PushRemote :=
  { createTask := fun _ => .ok "new-uid", findTodo := fun _ => false,
    updateTask := fun _ => .ok (), deleteTask := fun _ => .ok () }

/-- A pending update whose remote counterpart is missing. -/
def taskPendingA : PTask :=
  { uid := "a", operat := some "update", sync_attempts := 0, is_synced := false }

/-- A second pending update behind `taskPendingA` in the queue. -/
def taskPendingB : PTask :=
  { uid := "b", operat := some "update", sync_attempts := 0, is_synced := false }

/-- Wrapped function failing transiently twice, then returning 42. -/
def retryTwiceThenOk : Nat → CallOutcome Nat :=
  fun n => if n < 2 then CallOutcome.transient "connection reset" else CallOutcome.ok 42

/-- A single task whose uid and parent_uid are both the empty string. -/
def taskMapEmptyLoop : TaskMap := [("", some "")]

/-- A batch with a self-loop at "a" and a dangling parent at "b". -/
def taskMapSelfLoop : TaskMap := [("a", some "a"), ("b", some "z")]

/-- An already-valid batch: one root task with no parent. -/
def taskMapValid : TaskMap := [("a", none)]

/-- An incomplete VTODO as fetched from a calendar. -/
def vtodoIncomplete : VTodo :=
  [("UID", PropVal.pstr "u"), ("SUMMARY", PropVal.pstr "s"),
   ("STATUS", PropVal.pstr "NEEDS-ACTION")]

/-- A completed VTODO as fetched from a calendar: status COMPLETED with
a completion timestamp and percent-complete 100. -/
def vtodoDone : VTodo :=
  [("UID", PropVal.pstr "u"), ("SUMMARY", PropVal.pstr "s"),
   ("STATUS", PropVal.pstr "COMPLETED"), ("COMPLETED", PropVal.pdate 3),
   ("PERCENT-COMPLETE", PropVal.pstr "100")]

/-- Number of properties of a given name on a component. -/
def countName (l : VTodo) (n : String) : Nat := (l.filter fun e => e.1 = n).length

end CaldavWeb

namespace CaldavWeb

/-! ## Helper lemmas about task maps and parent chains -/

theorem keys_mapVal (f : Uid → Option Uid → Option Uid) (m : TaskMap) :
    keys (mapVal f m) = keys m := by
  simp [keys, mapVal, List.map_map]

theorem lookupUid_mapVal (f : Uid → Option Uid → Option Uid) (m : TaskMap) (u : Uid) :
    lookupUid (mapVal f m) u = (lookupUid m u).map (f u) := by
  induction m with
  | nil => rfl
  | cons e t ih =>
      obtain ⟨k, p⟩ := e
      by_cases h : k = u
      · subst h; simp [mapVal, lookupUid]
      · simp [mapVal, lookupUid, h] at ih ⊢; exact ih

theorem length_keys (m : TaskMap) : (keys m).length = m.length := by
  simp [keys]

theorem mem_keys_iff_lookup (m : TaskMap) (u : Uid) :
    u ∈ keys m ↔ (lookupUid m u).isSome := by
  induction m with
  | nil => simp [keys, lookupUid]
  | cons e t ih =>
      obtain ⟨k, p⟩ := e
      by_cases h : k = u
      · subst h; simp [keys, lookupUid]
      · have hk : keys ((k, p) :: t) = k :: keys t := rfl
        have hl : lookupUid ((k, p) :: t) u = lookupUid t u := by
          simp [lookupUid, h]
        rw [hk, List.mem_cons, hl, ← ih]
        constructor
        · rintro (hc | hc)
          · exact absurd hc.symm h
          · exact hc
        · exact Or.inr

theorem lookup_mem {m : TaskMap} {u : Uid} {p : Option Uid}
    (h : lookupUid m u = some p) : (u, p) ∈ m := by
  induction m with
  | nil => simp [lookupUid] at h
  | cons e t ih =>
      obtain ⟨k, q⟩ := e
      by_cases hk : k = u
      · subst hk
        simp [lookupUid] at h
        subst h; exact List.mem_cons_self _ _
      · simp [lookupUid, hk] at h
        exact List.mem_cons_of_mem _ (ih h)

theorem mem_lookup_of_nodup {m : TaskMap} {u : Uid} {p : Option Uid}
    (hnd : (keys m).Nodup) (h : (u, p) ∈ m) : lookupUid m u = some p := by
  induction m with
  | nil => simp at h
  | cons e t ih =>
      obtain ⟨k, q⟩ := e
      rcases List.mem_cons.mp h with h1 | h1
      · cases h1
        simp [lookupUid]
      · have hnd' : (k :: keys t).Nodup := hnd
        have hk : k ≠ u := by
          intro hke
          subst hke
          have hu : k ∈ keys t := List.mem_map.mpr ⟨(k, p), h1, rfl⟩
          exact (List.nodup_cons.mp hnd').1 hu
        have hnd2 : (keys t).Nodup := (List.nodup_cons.mp hnd').2
        simp only [lookupUid, if_neg hk]
        exact ih hnd2 h1

theorem chainU_eq_some_iff (m : TaskMap) (u p : Uid) :
    chainU m u = some p ↔ parentRel m u p := by
  unfold chainU parentRel
  cases h : lookupUid m u with
  | none => simp
  | some q => cases q <;> simp

theorem chainU_some_mem {m : TaskMap} {u p : Uid}
    (h : chainU m u = some p) : u ∈ keys m := by
  rw [chainU_eq_some_iff] at h
  rw [mem_keys_iff_lookup, h]
  rfl

theorem chainStep_iterate_none (m : TaskMap) (k : Nat) :
    (chainStep m)^[k] none = none := by
  induction k with
  | zero => rfl
  | succ j ih => rw [Function.iterate_succ_apply]; exact ih

theorem edgeSub_refl (m : TaskMap) : edgeSub m m := fun _ _ h => h

theorem edgeSub_trans {m1 m2 m3 : TaskMap}
    (h1 : edgeSub m1 m2) (h2 : edgeSub m2 m3) : edgeSub m1 m3 :=
  fun u p h => h2 u p (h1 u p h)

theorem edgeSub_chainU {m' m : TaskMap} (hs : edgeSub m' m) {a p : Uid}
    (h : chainU m' a = some p) : chainU m a = some p := by
  rw [chainU_eq_some_iff] at h ⊢
  exact hs _ _ h

theorem edgeSub_chainList {m' m : TaskMap} (hs : edgeSub m' m) :
    ∀ {a : Uid} {l : List Uid} {b : Uid}, chainList m' a l b → chainList m a l b := by
  intro a l b h
  induction l generalizing a with
  | nil => exact edgeSub_chainU hs h
  | cons c cs ih =>
      obtain ⟨h1, h2⟩ := h
      exact ⟨edgeSub_chainU hs h1, ih h2⟩

theorem chainList_append_cons (m : TaskMap) (l1 : List Uid) (a x : Uid)
    (l2 : List Uid) (b : Uid) :
    chainList m a (l1 ++ x :: l2) b ↔ chainList m a l1 x ∧ chainList m x l2 b := by
  induction l1 generalizing a with
  | nil => simp [chainList, and_assoc]
  | cons c cs ih =>
      simp only [List.cons_append, chainList, ih, and_assoc, List.append_eq]

theorem chainList_mem_keys {m : TaskMap} :
    ∀ {a : Uid} {l : List Uid} {b : Uid}, chainList m a l b →
      a ∈ keys m ∧ ∀ x ∈ l, x ∈ keys m := by
  intro a l b h
  induction l generalizing a with
  | nil => exact ⟨chainU_some_mem h, by simp⟩
  | cons c cs ih =>
      obtain ⟨h1, h2⟩ := h
      obtain ⟨hc, hcs⟩ := ih h2
      refine ⟨chainU_some_mem h1, ?_⟩
      intro x hx
      rcases List.mem_cons.mp hx with hx | hx
      · subst hx; exact hc
      · exact hcs x hx

theorem iter_some_to_chainList (m : TaskMap) :
    ∀ (k : Nat) (a b : Uid), 0 < k → (chainStep m)^[k] (some a) = some b →
      ∃ l, chainList m a l b ∧ l.length + 1 = k := by
  intro k
  induction k with
  | zero => intro a b h; omega
  | succ j ih =>
      intro a b _ hit
      rw [Function.iterate_succ_apply] at hit
      cases hs : chainStep m (some a) with
      | none =>
          rw [hs, chainStep_iterate_none] at hit
          exact absurd hit (by simp)
      | some c =>
          rw [hs] at hit
          have hca : chainU m a = some c := hs
          rcases Nat.eq_zero_or_pos j with hj | hj
          · subst hj
            simp at hit
            subst hit
            exact ⟨[], hca, rfl⟩
          · obtain ⟨l, hl, hlen⟩ := ih c b hj hit
            exact ⟨c :: l, ⟨hca, hl⟩, by simp only [List.length_cons]; omega⟩

theorem not_nodup_decomp {α : Type} [DecidableEq α] :
    ∀ {l : List α}, ¬ l.Nodup →
      ∃ (x : α) (l1 l2 l3 : List α), l = l1 ++ x :: (l2 ++ x :: l3) := by
  intro l h
  induction l with
  | nil => exact absurd List.nodup_nil h
  | cons a t ih =>
      by_cases ha : a ∈ t
      · obtain ⟨s, u, hsu⟩ := List.append_of_mem ha
        exact ⟨a, [], s, u, by simp [hsu]⟩
      · have : ¬ t.Nodup := by
          intro hn
          exact h (List.nodup_cons.mpr ⟨ha, hn⟩)
        obtain ⟨x, l1, l2, l3, hx⟩ := ih this
        exact ⟨x, a :: l1, l2, l3, by simp [hx]⟩

theorem cycle_shorten (m : TaskMap) (v : Uid) :
    ∀ (n : Nat) (l : List Uid), l.length = n → chainList m v l v →
      ∃ l', chainList m v l' v ∧ (v :: l').Nodup := by
  intro n
  induction n using Nat.strong_induction_on with
  | _ n ih =>
      intro l hlen hl
      by_cases hnd : (v :: l).Nodup
      · exact ⟨l, hl, hnd⟩
      · have hcases : v ∈ l ∨ ¬ l.Nodup := by
          by_cases hv : v ∈ l
          · exact Or.inl hv
          · right
            intro hn
            exact hnd (List.nodup_cons.mpr ⟨hv, hn⟩)
        rcases hcases with hv | hln
        · obtain ⟨s, u, hsu⟩ := List.append_of_mem hv
          subst hsu
          have h1 : chainList m v s v := ((chainList_append_cons m s v v u v).mp hl).1
          have hlt : s.length < n := by
            subst hlen; simp only [List.length_append, List.length_cons]; omega
          exact ih s.length hlt s rfl h1
        · obtain ⟨x, l1, l2, l3, hx⟩ := not_nodup_decomp hln
          subst hx
          have h1 := (chainList_append_cons m l1 v x (l2 ++ x :: l3) v).mp hl
          have h2 := (chainList_append_cons m l2 x x l3 v).mp h1.2
          have h3 : chainList m v (l1 ++ x :: l3) v :=
            (chainList_append_cons m l1 v x l3 v).mpr ⟨h1.1, h2.2⟩
          have hlt : (l1 ++ x :: l3).length < n := by
            subst hlen; simp only [List.length_append, List.length_cons]; omega
          exact ih _ hlt _ rfl h3

theorem nodup_subset_length {l1 l2 : List Uid} (hnd : l1.Nodup)
    (hsub : ∀ x ∈ l1, x ∈ l2) : l1.length ≤ l2.length := by
  classical
  calc l1.length = l1.toFinset.card := (List.toFinset_card_of_nodup hnd).symm
    _ ≤ l2.toFinset.card := by
        apply Finset.card_le_card
        intro x hx
        rw [List.mem_toFinset] at hx ⊢
        exact hsub x hx
    _ ≤ l2.length := l2.toFinset_card_le

theorem hasCycleAux_step (m : TaskMap) (start : Uid) (fuel : Nat) (c : Uid)
    (visited : List Uid) :
    hasCycleAux m start (fuel + 1) (some c) visited =
      if c = start then true
      else if c ∈ visited then false
      else
        match lookupUid m c with
        | none => false
        | some p => hasCycleAux m start fuel p (c :: visited) := rfl

theorem hasCycleAux_sound (m : TaskMap) (start : Uid) :
    ∀ (fuel : Nat) (cur : Option Uid) (visited : List Uid),
      hasCycleAux m start fuel cur visited = true →
      ∃ j, (chainStep m)^[j] cur = some start := by
  intro fuel
  induction fuel with
  | zero => intro cur visited h; simp [hasCycleAux] at h
  | succ f ih =>
      intro cur visited h
      cases cur with
      | none => simp [hasCycleAux] at h
      | some c =>
          by_cases hc : c = start
          · subst hc
            exact ⟨0, rfl⟩
          · rw [hasCycleAux, if_neg hc] at h
            by_cases hv : c ∈ visited
            · rw [if_pos hv] at h; simp at h
            · rw [if_neg hv] at h
              cases hl : lookupUid m c with
              | none => rw [hl] at h; simp at h
              | some p =>
                  rw [hl] at h
                  obtain ⟨j, hj⟩ := ih p (c :: visited) h
                  refine ⟨j + 1, ?_⟩
                  rw [Function.iterate_succ_apply]
                  have hstep : chainStep m (some c) = p := by
                    simp [chainStep, chainU, hl]
                  rw [hstep]
                  exact hj

theorem hasCycleAux_reach (m : TaskMap) (start : Uid) :
    ∀ (l : List Uid) (a : Uid) (visited : List Uid) (fuel : Nat),
      chainList m a l start → (a :: l).Nodup → start ∉ a :: l →
      (∀ x ∈ a :: l, x ∉ visited) → l.length + 2 ≤ fuel →
      hasCycleAux m start fuel (some a) visited = true := by
  intro l
  induction l with
  | nil =>
      intro a visited fuel hl _hnd hst hvis hfuel
      obtain ⟨f, rfl⟩ : ∃ f, fuel = f + 2 := ⟨fuel - 2, by omega⟩
      have ha : a ≠ start := by
        intro hh; exact hst (hh ▸ List.mem_cons_self a [])
      have hav : a ∉ visited := hvis a (List.mem_cons_self _ _)
      have hla : lookupUid m a = some (some start) := by
        have := (chainU_eq_some_iff m a start).mp hl
        exact this
      show hasCycleAux m start (f + 1 + 1) (some a) visited = true
      rw [hasCycleAux_step, if_neg ha, if_neg hav, hla]
      show hasCycleAux m start (f + 1) (some start) (a :: visited) = true
      rw [hasCycleAux_step, if_pos rfl]
  | cons c cs ih =>
      intro a visited fuel hl hnd hst hvis hfuel
      obtain ⟨f, rfl⟩ : ∃ f, fuel = f + 1 := ⟨fuel - 1, by omega⟩
      obtain ⟨h1, h2⟩ := hl
      have ha : a ≠ start := by
        intro hh; exact hst (hh ▸ List.mem_cons_self a _)
      have hav : a ∉ visited := hvis a (List.mem_cons_self _ _)
      have hla : lookupUid m a = some (some c) := (chainU_eq_some_iff m a c).mp h1
      rw [hasCycleAux_step, if_neg ha, if_neg hav, hla]
      show hasCycleAux m start f (some c) (a :: visited) = true
      apply ih c (a :: visited) f h2
      · exact (List.nodup_cons.mp hnd).2
      · intro hh
        exact hst (List.mem_cons_of_mem _ hh)
      · intro x hx
        rw [List.mem_cons]
        rintro (hxa | hxv)
        · subst hxa
          exact (List.nodup_cons.mp hnd).1 hx
        · exact hvis x (List.mem_cons_of_mem _ hx) hxv
      · simp only [List.length_cons] at hfuel ⊢
        omega

theorem has_cycle_complete {m : TaskMap} {v : Uid}
    (hnd : (keys m).Nodup) (hcyc : CycThrough m v) :
    has_cycle m v (chainU m v) = true := by
  obtain ⟨l0, hl0⟩ := hcyc
  obtain ⟨l, hl, hlnd⟩ := cycle_shorten m v l0.length l0 rfl hl0
  cases l with
  | nil =>
      have : chainU m v = some v := hl
      rw [this]
      rw [has_cycle, hasCycleAux, if_pos rfl]
  | cons c cs =>
      obtain ⟨h1, h2⟩ := hl
      rw [h1]
      have hnodes : ∀ x ∈ v :: c :: cs, x ∈ keys m := by
        intro x hx
        rcases List.mem_cons.mp hx with hx | hx
        · subst hx; exact chainU_some_mem h1
        · obtain ⟨hc, hcs⟩ := chainList_mem_keys h2
          rcases List.mem_cons.mp hx with hx | hx
          · subst hx; exact hc
          · exact hcs x hx
      have hlen : (v :: c :: cs).length ≤ (keys m).length :=
        nodup_subset_length hlnd hnodes
      rw [length_keys] at hlen
      simp only [List.length_cons] at hlen
      apply hasCycleAux_reach m v cs c []
      · exact h2
      · exact (List.nodup_cons.mp hlnd).2
      · have := (List.nodup_cons.mp hlnd).1
        intro hh
        exact this hh
      · simp
      · omega

/-- Lookup-level form of the no-empty-parent invariant, the one the
pass-two guard consumes. -/
def noEmptyLookup (m : TaskMap) : Prop := ∀ u, lookupUid m u ≠ some (some "")

theorem noEmptyLookup_of_entries {m : TaskMap} (h : noEmptyEntries m) :
    noEmptyLookup m := by
  intro u hu
  exact h (u, some "") (lookup_mem hu) rfl

theorem keys_setParentNone (v : Uid) (m : TaskMap) :
    keys (setParentNone v m) = keys m := keys_mapVal _ m

theorem lookupUid_setParentNone (v : Uid) (m : TaskMap) (u : Uid) :
    lookupUid (setParentNone v m) u =
      (lookupUid m u).map (fun p => if u = v then none else p) :=
  lookupUid_mapVal _ m u

theorem pass2Step_eq_none {m : TaskMap} {v : Uid} (h : lookupUid m v = none) :
    pass2Step m v = m := by
  unfold pass2Step
  rw [h]

theorem pass2Step_eq_some_none {m : TaskMap} {v : Uid}
    (h : lookupUid m v = some none) : pass2Step m v = m := by
  unfold pass2Step
  rw [h]

theorem pass2Step_eq_guard_true {m : TaskMap} {v p : Uid}
    (h : lookupUid m v = some (some p))
    (hg : p ≠ "" ∧ has_cycle m v (some p) = true) :
    pass2Step m v = setParentNone v m := by
  unfold pass2Step
  rw [h]
  exact if_pos hg

theorem pass2Step_eq_guard_false {m : TaskMap} {v p : Uid}
    (h : lookupUid m v = some (some p))
    (hg : ¬ (p ≠ "" ∧ has_cycle m v (some p) = true)) :
    pass2Step m v = m := by
  unfold pass2Step
  rw [h]
  exact if_neg hg

theorem keys_pass2Step (m : TaskMap) (v : Uid) :
    keys (pass2Step m v) = keys m := by
  cases h : lookupUid m v with
  | none => rw [pass2Step_eq_none h]
  | some q =>
      cases q with
      | none => rw [pass2Step_eq_some_none h]
      | some p =>
          by_cases hc : p ≠ "" ∧ has_cycle m v (some p) = true
          · rw [pass2Step_eq_guard_true h hc]
            exact keys_setParentNone v m
          · rw [pass2Step_eq_guard_false h hc]

theorem edgeSub_setParentNone (v : Uid) (m : TaskMap) :
    edgeSub (setParentNone v m) m := by
  intro u p h
  unfold parentRel at h ⊢
  rw [lookupUid_setParentNone] at h
  cases hl : lookupUid m u with
  | none => rw [hl] at h; simp at h
  | some q =>
      rw [hl] at h
      have h2 : (if u = v then none else q) = some p := Option.some.inj h
      by_cases huv : u = v
      · rw [if_pos huv] at h2; simp at h2
      · rw [if_neg huv] at h2
        rw [h2]

theorem edgeSub_pass2Step (m : TaskMap) (v : Uid) :
    edgeSub (pass2Step m v) m := by
  cases h : lookupUid m v with
  | none => rw [pass2Step_eq_none h]; exact edgeSub_refl m
  | some q =>
      cases q with
      | none => rw [pass2Step_eq_some_none h]; exact edgeSub_refl m
      | some p =>
          by_cases hc : p ≠ "" ∧ has_cycle m v (some p) = true
          · rw [pass2Step_eq_guard_true h hc]
            exact edgeSub_setParentNone v m
          · rw [pass2Step_eq_guard_false h hc]
            exact edgeSub_refl m

theorem noEmptyLookup_edgeSub {m' m : TaskMap} (hs : edgeSub m' m)
    (h : noEmptyLookup m) : noEmptyLookup m' := by
  intro u hu
  exact h u (hs u "" hu)

theorem cycThrough_edgeSub {m' m : TaskMap} (hs : edgeSub m' m) {u : Uid}
    (h : CycThrough m' u) : CycThrough m u := by
  obtain ⟨l, hl⟩ := h
  exact ⟨l, edgeSub_chainList hs hl⟩

theorem chainU_of_cycThrough {m : TaskMap} {v : Uid} (h : CycThrough m v) :
    ∃ c, chainU m v = some c := by
  obtain ⟨l, hl⟩ := h
  cases l with
  | nil => exact ⟨v, hl⟩
  | cons c cs => exact ⟨c, hl.1⟩

theorem chainU_setParentNone_self (v : Uid) (m : TaskMap) :
    chainU (setParentNone v m) v = none := by
  unfold chainU
  rw [lookupUid_setParentNone]
  cases lookupUid m v <;> simp

theorem not_cycThrough_pass2Step {m : TaskMap} (v : Uid)
    (hnd : (keys m).Nodup) (hne : noEmptyLookup m) :
    ¬ CycThrough (pass2Step m v) v := by
  intro hcyc
  cases h : lookupUid m v with
  | none =>
      rw [pass2Step_eq_none h] at hcyc
      obtain ⟨c, hc⟩ := chainU_of_cycThrough hcyc
      rw [chainU, h] at hc
      simp at hc
  | some q =>
      cases q with
      | none =>
          rw [pass2Step_eq_some_none h] at hcyc
          obtain ⟨c, hc⟩ := chainU_of_cycThrough hcyc
          rw [chainU, h] at hc
          simp at hc
      | some p =>
          have hp : p ≠ "" := by
            intro hp
            subst hp
            exact hne v h
          by_cases hcy : has_cycle m v (some p) = true
          · rw [pass2Step_eq_guard_true h ⟨hp, hcy⟩] at hcyc
            obtain ⟨c, hc⟩ := chainU_of_cycThrough hcyc
            rw [chainU_setParentNone_self] at hc
            simp at hc
          · rw [pass2Step_eq_guard_false h (by tauto)] at hcyc
            have hcomp := has_cycle_complete hnd hcyc
            rw [chainU, h] at hcomp
            exact hcy hcomp

theorem pass2_fold (todo : List Uid) :
    ∀ (m : TaskMap) (done : List Uid),
      (keys m).Nodup → noEmptyLookup m → (∀ u ∈ done, ¬ CycThrough m u) →
      keys (todo.foldl pass2Step m) = keys m ∧
      edgeSub (todo.foldl pass2Step m) m ∧
      (∀ u, u ∈ done ∨ u ∈ todo → ¬ CycThrough (todo.foldl pass2Step m) u) := by
  induction todo with
  | nil =>
      intro m done _hnd _hne hdone
      refine ⟨rfl, edgeSub_refl m, ?_⟩
      intro u hu
      rcases hu with hu | hu
      · exact hdone u hu
      · simp at hu
  | cons v todo' ih =>
      intro m done hnd hne hdone
      have hk2 : keys (pass2Step m v) = keys m := keys_pass2Step m v
      have hsub2 : edgeSub (pass2Step m v) m := edgeSub_pass2Step m v
      have hnd2 : (keys (pass2Step m v)).Nodup := hk2 ▸ hnd
      have hne2 : noEmptyLookup (pass2Step m v) :=
        noEmptyLookup_edgeSub hsub2 hne
      have hv : ¬ CycThrough (pass2Step m v) v :=
        not_cycThrough_pass2Step v hnd hne
      have hdone2 : ∀ u ∈ v :: done, ¬ CycThrough (pass2Step m v) u := by
        intro u hu
        rcases List.mem_cons.mp hu with hu | hu
        · subst hu; exact hv
        · intro hc
          exact hdone u hu (cycThrough_edgeSub hsub2 hc)
      obtain ⟨ihk, ihsub, ihcyc⟩ := ih (pass2Step m v) (v :: done) hnd2 hne2 hdone2
      refine ⟨?_, ?_, ?_⟩
      · rw [List.foldl_cons, ihk, hk2]
      · rw [List.foldl_cons]
        exact edgeSub_trans ihsub hsub2
      · intro u hu
        rw [List.foldl_cons]
        apply ihcyc
        rcases hu with hu | hu
        · exact Or.inl (List.mem_cons_of_mem _ hu)
        · rcases List.mem_cons.mp hu with hu | hu
          · exact Or.inl (hu ▸ List.mem_cons_self _ _)
          · exact Or.inr hu

theorem mapVal_id {f : Uid → Option Uid → Option Uid} {m : TaskMap}
    (h : ∀ e ∈ m, f e.1 e.2 = e.2) : mapVal f m = m := by
  induction m with
  | nil => rfl
  | cons e t ih =>
      obtain ⟨k, p⟩ := e
      have h1 : f k p = p := h (k, p) (List.mem_cons_self _ _)
      have h2 : mapVal f t = t := ih fun x hx => h x (List.mem_cons_of_mem _ hx)
      simp [mapVal] at h2 ⊢
      exact ⟨h1, h2⟩

theorem keys_removeDangling (m : TaskMap) : keys (removeDangling m) = keys m :=
  keys_mapVal _ m

theorem lookupUid_removeDangling (m : TaskMap) (u : Uid) :
    lookupUid (removeDangling m) u =
      (lookupUid m u).map (fun p =>
        match p with
        | some q => if q ≠ "" ∧ q ∉ keys m then none else some q
        | none => none) :=
  lookupUid_mapVal _ m u

theorem lookupUid_removeDangling_nokey {m : TaskMap} {u : Uid}
    (hl : lookupUid m u = none) : lookupUid (removeDangling m) u = none := by
  rw [lookupUid_removeDangling, hl]
  rfl

theorem lookupUid_removeDangling_noparent {m : TaskMap} {u : Uid}
    (hl : lookupUid m u = some none) :
    lookupUid (removeDangling m) u = some none := by
  rw [lookupUid_removeDangling, hl]
  rfl

theorem lookupUid_removeDangling_some {m : TaskMap} {u q' : Uid}
    (hl : lookupUid m u = some (some q')) :
    lookupUid (removeDangling m) u =
      some (if q' ≠ "" ∧ q' ∉ keys m then none else some q') := by
  rw [lookupUid_removeDangling, hl]
  rfl

theorem resolves_removeDangling {m : TaskMap} (hne : noEmptyLookup m) :
    resolvesInMap (removeDangling m) := by
  intro u p h
  unfold parentRel at h
  cases hl : lookupUid m u with
  | none => rw [lookupUid_removeDangling_nokey hl] at h; simp at h
  | some q =>
      cases q with
      | none => rw [lookupUid_removeDangling_noparent hl] at h; simp at h
      | some q' =>
          rw [lookupUid_removeDangling_some hl] at h
          by_cases hc : q' ≠ "" ∧ q' ∉ keys m
          · rw [if_pos hc] at h; simp at h
          · rw [if_neg hc] at h
            have hq : q' = p := Option.some.inj (Option.some.inj h)
            subst hq
            rw [keys_removeDangling]
            push_neg at hc
            by_cases he : q' = ""
            · subst he
              exact absurd hl (hne u)
            · exact hc he

theorem noEmptyLookup_removeDangling {m : TaskMap} (hne : noEmptyLookup m) :
    noEmptyLookup (removeDangling m) := by
  intro u h
  cases hl : lookupUid m u with
  | none => rw [lookupUid_removeDangling_nokey hl] at h; simp at h
  | some q =>
      cases q with
      | none => rw [lookupUid_removeDangling_noparent hl] at h; simp at h
      | some q' =>
          rw [lookupUid_removeDangling_some hl] at h
          by_cases hc : q' ≠ "" ∧ q' ∉ keys m
          · rw [if_pos hc] at h; simp at h
          · rw [if_neg hc] at h
            have hq : q' = "" := Option.some.inj (Option.some.inj h)
            subst hq
            exact hne u hl

/-! ## Claims C6 and C7 -/

/-- Claim C6, as stated, is false: for the input mapping holding one
task whose uid and parent_uid are both the empty string, hierarchy
validation leaves the batch unchanged (both guards use Python string
truthiness, so the empty-string parent is never examined), and the
result still has a parent-chain cycle of length one. -/
theorem C6_forest_claim_counterexample :
    ¬ (resolvesInMap (validate_task_hierarchy taskMapEmptyLoop) ∧
       acyclicMap (validate_task_hierarchy taskMapEmptyLoop)) := by
  intro h
  exact h.2 "" 1 Nat.one_pos (by rfl)

/-- Claim C6 (amended): for every input mapping with distinct uids in
which no task stores the empty string as its parent_uid, after
`_validate_task_hierarchy` runs the resulting mapping has no
parent-chain cycles and every non-null parent_uid is a key present in
the mapping: the output is a forest. -/
theorem C6_forest_after_validation (m : TaskMap)
    (hnd : (keys m).Nodup) (hne : noEmptyEntries m) :
    resolvesInMap (validate_task_hierarchy m) ∧
    acyclicMap (validate_task_hierarchy m) := by
  have hneL : noEmptyLookup m := noEmptyLookup_of_entries hne
  have hne1 : noEmptyLookup (removeDangling m) := noEmptyLookup_removeDangling hneL
  have hres1 : resolvesInMap (removeDangling m) := resolves_removeDangling hneL
  have hnd1 : (keys (removeDangling m)).Nodup := by
    rw [keys_removeDangling]; exact hnd
  obtain ⟨hk, hsub, hcyc⟩ :=
    pass2_fold (keys (removeDangling m)) (removeDangling m) [] hnd1 hne1 (by simp)
  have hval : validate_task_hierarchy m =
      (keys (removeDangling m)).foldl pass2Step (removeDangling m) := rfl
  constructor
  · intro u p h
    rw [hval] at h
    have hp := hres1 u p (hsub u p h)
    rw [hval, hk]
    exact hp
  · intro u k hkpos hit
    rw [hval] at hit
    have hit2 : (chainStep ((keys (removeDangling m)).foldl pass2Step
        (removeDangling m)))^[k] (some u) = some u := hit
    obtain ⟨l, hl, _⟩ := iter_some_to_chainList _ k u u hkpos hit2
    have hu := (chainList_mem_keys hl).1
    rw [hk] at hu
    exact hcyc u (Or.inr hu) ⟨l, hl⟩

/-- Witness for C6 at a concrete batch: a self-loop at "a" and a
dangling parent at "b"; validation yields a forest. -/
theorem C6_forest_after_validation_witness :
    ((keys taskMapSelfLoop).Nodup ∧ noEmptyEntries taskMapSelfLoop) ∧
    (resolvesInMap (validate_task_hierarchy taskMapSelfLoop) ∧
     acyclicMap (validate_task_hierarchy taskMapSelfLoop)) :=
  ⟨⟨by decide, by unfold noEmptyEntries taskMapSelfLoop; decide⟩,
   C6_forest_after_validation taskMapSelfLoop (by decide)
     (by unfold noEmptyEntries taskMapSelfLoop; decide)⟩

/-- Claim C7: on a batch already satisfying the validity invariant
(distinct uids, no cycles, every non-null parent_uid resolves within
the batch), `_validate_task_hierarchy` changes nothing, and hence
validating twice equals validating once. -/
theorem C7_validation_idempotent (m : TaskMap)
    (hnd : (keys m).Nodup) (hres : resolvesInMap m) (hacy : acyclicMap m) :
    validate_task_hierarchy m = m ∧
    validate_task_hierarchy (validate_task_hierarchy m) =
      validate_task_hierarchy m := by
  have hrd : removeDangling m = m := by
    apply mapVal_id
    intro e he
    obtain ⟨u, p⟩ := e
    cases p with
    | none => rfl
    | some q =>
        simp only
        by_cases he2 : q ≠ "" ∧ q ∉ keys m
        · exfalso
          have hl : lookupUid m u = some (some q) := mem_lookup_of_nodup hnd he
          exact he2.2 (hres u q hl)
        · rw [if_neg he2]
  have hstep : ∀ v, pass2Step m v = m := by
    intro v
    cases h : lookupUid m v with
    | none => exact pass2Step_eq_none h
    | some q =>
        cases q with
        | none => exact pass2Step_eq_some_none h
        | some p =>
            apply pass2Step_eq_guard_false h
            rintro ⟨_, hcy⟩
            obtain ⟨j, hj⟩ := hasCycleAux_sound m v (m.length + 1) (some p) [] hcy
            have hstepv : chainStep m (some v) = some p := by
              simp [chainStep, chainU, h]
            have hloop : chainIter m (j + 1) v = some v := by
              rw [chainIter, Function.iterate_succ_apply, hstepv]
              exact hj
            exact hacy v (j + 1) (Nat.succ_pos j) hloop
  have hfold : ∀ (l : List Uid), l.foldl pass2Step m = m := by
    intro l
    induction l with
    | nil => rfl
    | cons v t ih => rw [List.foldl_cons, hstep v]; exact ih
  have h1 : validate_task_hierarchy m = m := by
    show (keys (removeDangling m)).foldl pass2Step (removeDangling m) = m
    rw [hrd]
    exact hfold (keys m)
  exact ⟨h1, by rw [h1, h1]⟩

/-- Witness for C7 at a concrete already-valid batch. -/
theorem C7_validation_idempotent_witness :
    ((keys taskMapValid).Nodup ∧ resolvesInMap taskMapValid ∧
      acyclicMap taskMapValid) ∧
    (validate_task_hierarchy taskMapValid = taskMapValid ∧
     validate_task_hierarchy (validate_task_hierarchy taskMapValid) =
       validate_task_hierarchy taskMapValid) := by
  have hres : resolvesInMap taskMapValid := by
    intro u p h
    by_cases hu : "a" = u
    · simp [parentRel, taskMapValid, lookupUid, hu] at h
    · simp [parentRel, taskMapValid, lookupUid, hu] at h
  have hacy : acyclicMap taskMapValid := by
    intro u k hk hit
    obtain ⟨j, rfl⟩ : ∃ j, k = j + 1 := ⟨k - 1, by omega⟩
    have hstep : chainStep taskMapValid (some u) = none := by
      show chainU taskMapValid u = none
      by_cases hu : "a" = u
      · simp [chainU, taskMapValid, lookupUid, hu]
      · simp [chainU, taskMapValid, lookupUid, hu]
    rw [chainIter, Function.iterate_succ_apply, hstep,
      chainStep_iterate_none] at hit
    simp at hit
  exact ⟨⟨by decide, hres, hacy⟩,
    C7_validation_idempotent taskMapValid (by decide) hres hacy⟩

/-! ## Helper lemmas about VTODO property lists -/

theorem lookupProp_append (l1 l2 : VTodo) (n : String) :
    lookupProp (l1 ++ l2) n =
      match lookupProp l1 n with
      | some v => some v
      | none => lookupProp l2 n := by
  induction l1 with
  | nil => rfl
  | cons e t ih =>
      obtain ⟨k, w⟩ := e
      by_cases h : k = n
      · simp [lookupProp, h]
      · simp [lookupProp, h, ih]

theorem lookupProp_setPropFirst_self (l : VTodo) (n : String) (v : PropVal) :
    lookupProp (setPropFirst l n v) n = some v := by
  induction l with
  | nil => simp [setPropFirst, lookupProp]
  | cons e t ih =>
      obtain ⟨k, w⟩ := e
      by_cases h : k = n
      · simp [setPropFirst, lookupProp, h]
      · simp [setPropFirst, lookupProp, h, ih]

theorem lookupProp_cons (k : String) (w : PropVal) (t : VTodo) (n : String) :
    lookupProp ((k, w) :: t) n = if k = n then some w else lookupProp t n := rfl

theorem removePropAll_cons (k : String) (w : PropVal) (t : VTodo) (n : String) :
    removePropAll ((k, w) :: t) n =
      if k = n then removePropAll t n else (k, w) :: removePropAll t n := by
  simp only [removePropAll, List.filter_cons]
  by_cases h : k = n
  · simp [h]
  · simp [h]

theorem countName_cons (k : String) (w : PropVal) (t : VTodo) (n : String) :
    countName ((k, w) :: t) n = (if k = n then 1 else 0) + countName t n := by
  simp only [countName, List.filter_cons]
  by_cases h : k = n
  · simp [h, Nat.add_comm]
  · simp [h]

theorem lookupProp_setPropFirst_other (l : VTodo) {m n : String} (v : PropVal)
    (hmn : m ≠ n) : lookupProp (setPropFirst l n v) m = lookupProp l m := by
  induction l with
  | nil =>
      show lookupProp [(n, v)] m = lookupProp [] m
      rw [lookupProp_cons, if_neg (Ne.symm hmn)]
  | cons e t ih =>
      obtain ⟨k, w⟩ := e
      show lookupProp (if k = n then (k, v) :: t else (k, w) :: setPropFirst t n v) m =
        lookupProp ((k, w) :: t) m
      by_cases h : k = n
      · have hkm : ¬ k = m := by
          intro hc; rw [hc] at h; exact hmn h
        rw [if_pos h, lookupProp_cons, lookupProp_cons, if_neg hkm, if_neg hkm]
      · rw [if_neg h, lookupProp_cons, lookupProp_cons]
        by_cases hkm : k = m
        · rw [if_pos hkm, if_pos hkm]
        · rw [if_neg hkm, if_neg hkm]
          exact ih

theorem lookupProp_removePropAll_other (l : VTodo) {m n : String}
    (hmn : m ≠ n) : lookupProp (removePropAll l n) m = lookupProp l m := by
  induction l with
  | nil => rfl
  | cons e t ih =>
      obtain ⟨k, w⟩ := e
      rw [removePropAll_cons, lookupProp_cons]
      by_cases h : k = n
      · have hkm : ¬ k = m := by
          intro hc; rw [hc] at h; exact hmn h
        rw [if_pos h, if_neg hkm]
        exact ih
      · rw [if_neg h, lookupProp_cons]
        by_cases hkm : k = m
        · rw [if_pos hkm, if_pos hkm]
        · rw [if_neg hkm, if_neg hkm]
          exact ih

theorem lookupProp_removePropAll_self (l : VTodo) (n : String) :
    lookupProp (removePropAll l n) n = none := by
  induction l with
  | nil => rfl
  | cons e t ih =>
      obtain ⟨k, w⟩ := e
      rw [removePropAll_cons]
      by_cases h : k = n
      · rw [if_pos h]
        exact ih
      · rw [if_neg h, lookupProp_cons, if_neg h]
        exact ih

theorem countName_append (l1 l2 : VTodo) (n : String) :
    countName (l1 ++ l2) n = countName l1 n + countName l2 n := by
  simp [countName, List.filter_append]

theorem countName_setPropFirst_other (l : VTodo) {m n : String} (v : PropVal)
    (hmn : m ≠ n) : countName (setPropFirst l n v) m = countName l m := by
  induction l with
  | nil =>
      show countName [(n, v)] m = countName [] m
      rw [countName_cons, if_neg (Ne.symm hmn), Nat.zero_add]
  | cons e t ih =>
      obtain ⟨k, w⟩ := e
      show countName (if k = n then (k, v) :: t else (k, w) :: setPropFirst t n v) m =
        countName ((k, w) :: t) m
      by_cases h : k = n
      · rw [if_pos h, countName_cons, countName_cons]
      · rw [if_neg h, countName_cons, countName_cons, ih]

theorem countName_removePropAll_other (l : VTodo) {m n : String}
    (hmn : m ≠ n) : countName (removePropAll l n) m = countName l m := by
  induction l with
  | nil => rfl
  | cons e t ih =>
      obtain ⟨k, w⟩ := e
      rw [removePropAll_cons, countName_cons]
      by_cases h : k = n
      · have hkm : ¬ k = m := by
          intro hc; rw [hc] at h; exact hmn h
        rw [if_pos h, if_neg hkm, Nat.zero_add]
        exact ih
      · rw [if_neg h, countName_cons, ih]

theorem countName_zero_iff (l : VTodo) (n : String) :
    countName l n = 0 ↔ ∀ e ∈ l, e.1 ≠ n := by
  induction l with
  | nil => simp [countName]
  | cons e t ih =>
      obtain ⟨k, w⟩ := e
      rw [countName_cons]
      by_cases h : k = n
      · rw [if_pos h]
        constructor
        · intro hh
          exact absurd hh (by omega)
        · intro hh
          exact absurd h (hh (k, w) (List.mem_cons_self _ _))
      · rw [if_neg h, Nat.zero_add, ih]
        constructor
        · intro hh e2 he2
          rcases List.mem_cons.mp he2 with he2 | he2
          · rw [he2]
            exact h
          · exact hh e2 he2
        · intro hh e2 he2
          exact hh e2 (List.mem_cons_of_mem _ he2)

theorem countName_removePropFirst (l : VTodo) (n : String)
    (h : countName l n ≤ 1) : countName (removePropFirst l n) n = 0 := by
  induction l with
  | nil => rfl
  | cons e t ih =>
      obtain ⟨k, w⟩ := e
      show countName (if k = n then t else (k, w) :: removePropFirst t n) n = 0
      by_cases hk : k = n
      · rw [if_pos hk]
        rw [countName_cons, if_pos hk] at h
        omega
      · rw [if_neg hk, countName_cons, if_neg hk, Nat.zero_add]
        rw [countName_cons, if_neg hk, Nat.zero_add] at h
        exact ih h

theorem countName_hasProp_false (l : VTodo) (n : String)
    (h : hasProp l n = false) : countName l n = 0 := by
  rw [countName_zero_iff]
  intro e he hen
  have ht : hasProp l n = true := by
    unfold hasProp
    rw [List.any_eq_true]
    exact ⟨e, he, by simp [hen]⟩
  rw [ht] at h
  simp at h

theorem fixProp_name : ∀ (e e' : String × PropVal), fixProp e = some e' → e'.1 = e.1 := by
  intro e e' h
  obtain ⟨n, v⟩ := e
  cases v with
  | pnone => simp [fixProp] at h
  | pstr s =>
      unfold fixProp at h
      split_ifs at h <;> simp at h <;> rw [← h]
  | pint k =>
      unfold fixProp at h
      split_ifs at h <;> simp at h <;> rw [← h]
  | pdate t =>
      unfold fixProp at h
      split_ifs at h <;> simp at h <;> rw [← h]

theorem lookupProp_filterMap_some {l : VTodo} {n : String} {v v' : PropVal}
    (hv : fixProp (n, v) = some (n, v')) (h : lookupProp l n = some v) :
    lookupProp (l.filterMap fixProp) n = some v' := by
  induction l with
  | nil => simp [lookupProp] at h
  | cons e t ih =>
      obtain ⟨k, w⟩ := e
      by_cases hk : k = n
      · subst hk
        have hw : w = v := by simpa [lookupProp] using h
        subst hw
        rw [List.filterMap_cons, hv]
        simp [lookupProp]
      · have h2 : lookupProp t n = some v := by simpa [lookupProp, hk] using h
        rw [List.filterMap_cons]
        cases hf : fixProp (k, w) with
        | none => exact ih h2
        | some e2 =>
            obtain ⟨k2, w2⟩ := e2
            have hk2 : k2 = k := fixProp_name _ _ hf
            simp [lookupProp, hk2, hk]
            exact ih h2

theorem lookupProp_filterMap_none {l : VTodo} {n : String}
    (h : ∀ e ∈ l, e.1 ≠ n) : lookupProp (l.filterMap fixProp) n = none := by
  induction l with
  | nil => rfl
  | cons e t ih =>
      obtain ⟨k, w⟩ := e
      have hk : k ≠ n := h (k, w) (List.mem_cons_self _ _)
      have ht : ∀ e ∈ t, e.1 ≠ n := fun e2 he2 => h e2 (List.mem_cons_of_mem _ he2)
      rw [List.filterMap_cons]
      cases hf : fixProp (k, w) with
      | none => exact ih ht
      | some e2 =>
          obtain ⟨k2, w2⟩ := e2
          have hk2 : k2 = k := fixProp_name _ _ hf
          simp [lookupProp, hk2, hk]
          exact ih ht

/-! ## Step lemmas for the retry loop -/

theorem retryAux_succ_eq {α : Type} (f : Nat → CallOutcome α) (δ : ℚ)
    (r idx : Nat) :
    retryAux f δ (r + 1) idx =
      match f idx with
      | CallOutcome.ok v => (Except.ok v, 1, [])
      | CallOutcome.transient _ =>
          if r = 0 then
            (Except.error "CalDAVConnectionError: failed after all attempts", 1, [])
          else
            ((retryAux f δ r (idx + 1)).1, (retryAux f δ r (idx + 1)).2.1 + 1,
              δ * 2 ^ idx :: (retryAux f δ r (idx + 1)).2.2)
      | CallOutcome.fatal e => (Except.error e, 1, []) := rfl

theorem retryAux_ok {α : Type} {f : Nat → CallOutcome α} {δ : ℚ} {r idx : Nat}
    {v : α} (h : f idx = CallOutcome.ok v) :
    retryAux f δ (r + 1) idx = (Except.ok v, 1, []) := by
  rw [retryAux_succ_eq, h]

theorem retryAux_transient {α : Type} {f : Nat → CallOutcome α} {δ : ℚ}
    {r idx : Nat} {msg : String} (h : f idx = CallOutcome.transient msg)
    (hr : r ≠ 0) :
    retryAux f δ (r + 1) idx =
      ((retryAux f δ r (idx + 1)).1, (retryAux f δ r (idx + 1)).2.1 + 1,
        δ * 2 ^ idx :: (retryAux f δ r (idx + 1)).2.2) := by
  rw [retryAux_succ_eq, h]
  exact if_neg hr

/-! ## Helper lemmas for the pull statistics -/

theorem get_all_tasks_impl_length (todos : List (Option TaskData)) :
    (get_all_tasks_impl todos).1.length + (get_all_tasks_impl todos).2 = todos.length := by
  induction todos with
  | nil => rfl
  | cons o t ih =>
      cases o with
      | some d =>
          show ((get_all_tasks_impl t).1.length + 1) + (get_all_tasks_impl t).2 =
            t.length + 1
          omega
      | none =>
          show (get_all_tasks_impl t).1.length + ((get_all_tasks_impl t).2 + 1) =
            t.length + 1
          omega

theorem syncDbCounters_cons (existing dbFail : Uid → Bool) (u : Uid)
    (d : TaskData) (t : List (Uid × TaskData)) :
    syncDbCounters existing dbFail ((u, d) :: t) =
      if dbFail u then
        ((syncDbCounters existing dbFail t).1, (syncDbCounters existing dbFail t).2.1,
          (syncDbCounters existing dbFail t).2.2 + 1)
      else if existing u then
        ((syncDbCounters existing dbFail t).1, (syncDbCounters existing dbFail t).2.1 + 1,
          (syncDbCounters existing dbFail t).2.2)
      else
        ((syncDbCounters existing dbFail t).1 + 1, (syncDbCounters existing dbFail t).2.1,
          (syncDbCounters existing dbFail t).2.2) := rfl

theorem syncDbCounters_errors (existing dbFail : Uid → Bool) :
    ∀ l : List (Uid × TaskData),
      (syncDbCounters existing dbFail l).2.2 =
        (l.filter fun e => dbFail e.1).length := by
  intro l
  induction l with
  | nil => rfl
  | cons e t ih =>
      obtain ⟨u, d⟩ := e
      rw [syncDbCounters_cons, List.filter_cons]
      by_cases hf : dbFail u = true
      · rw [if_pos hf, if_pos (show dbFail (u, d).1 = true from hf)]
        show (syncDbCounters existing dbFail t).2.2 + 1 = _
        rw [List.length_cons, ih]
      · rw [if_neg hf, if_neg (show ¬ dbFail (u, d).1 = true from hf)]
        by_cases he : existing u = true
        · rw [if_pos he]
          show (syncDbCounters existing dbFail t).2.2 = _
          exact ih
        · rw [if_neg he]
          show (syncDbCounters existing dbFail t).2.2 = _
          exact ih

/-! ## Claims C1 to C5, C8 to C10 -/

/-- Claim C1: the per-item error isolation the spec describes is absent
from the code.  The `try/except` inside the push loop of /push_pending
(app.py 565, 601-606) is commented out, so one failing item makes the
whole request raise: the batch is aborted, no `sync_attempts` counter
is incremented, nothing is appended to `errors`, and the remaining
pending items are never attempted.  This theorem shows the abort: any
item whose push raises turns the whole loop into that exception. -/
theorem C1_push_failure_aborts_batch (r : PushRemote) (t : PTask)
    (ts : List PTask) (e : String) (h : pushOne r t = Except.error e) :
    push_pending r (t :: ts) = Except.error e := by
  unfold push_pending
  rw [h]

/-- Witness for C1: a queue of two pending updates whose first is
missing remotely; the push aborts with the raised exception and the
second task is never attempted. -/
theorem C1_push_failure_aborts_batch_witness :
    pushOne remoteNotFound taskPendingA =
      Except.error "Task a not found in remote calendar" ∧
    push_pending remoteNotFound [taskPendingA, taskPendingB] =
      Except.error "Task a not found in remote calendar" := by
  have h : pushOne remoteNotFound taskPendingA =
      Except.error "Task a not found in remote calendar" := by rfl
  exact ⟨h, C1_push_failure_aborts_batch remoteNotFound taskPendingA
    [taskPendingB] _ h⟩

/-- Claim C2 (counterexample): a task in state unsynced with pending
operation create, locally edited while the remote update fails, does
not keep operation create: `task.mark_for_sync('update')` (app.py 465)
overwrites it with update. -/
theorem C2_create_op_downgraded_counterexample :
    app_update_task_sync (some (Except.error "CalDAV update failed"))
        { is_synced := false, op := some "create", sync_attempts := 0 } =
      { is_synced := false, op := some "update", sync_attempts := 0 } ∧
    (some "update" : Option String) ≠ some "create" := by
  exact ⟨rfl, by decide⟩

/-- Claim C2 (amended): a local edit that goes through the PATCH route
sync step marks the task unsynced with pending operation 'update'
regardless of its prior sync state — a pending 'create' is downgraded
to 'update', not preserved.  (This holds whether the remote update
raises or not, because `client.update_task` returns `None` and the
route treats that falsy result as failure.) -/
theorem C2_local_edit_always_marks_update
    (raised : Option (Except String Unit)) (s : SyncState) :
    app_update_task_sync (raised.map client_update_task_result) s =
      { is_synced := false, op := some "update", sync_attempts := 0 } := by
  cases raised with
  | none => rfl
  | some o =>
      cases o with
      | ok _ => rfl
      | error e => rfl

/-- Claim C3 (counterexample): a wire priority of 0 does not decode to
an absent priority; `max(1, min(9, 0))` clamps it up to 1
(caldav_client.py 208). -/
theorem C3_priority_zero_clamped_counterexample :
    parse_vtodo_priority (some "0") = some 1 ∧
    parse_vtodo_priority (some "0") ≠ none := by
  exact ⟨by decide, by decide⟩

/-- Claim C3 (amended): decoding clamps priority 15 to 9 and priority 0
to 1 (values outside 1-9 are clamped into the range, in both
directions), while a non-coercible priority such as "abc" becomes
absent. -/
theorem C3_priority_clamping :
    parse_vtodo_priority (some "15") = some 9 ∧
    parse_vtodo_priority (some "0") = some 1 ∧
    parse_vtodo_priority (some "abc") = none ∧
    parse_vtodo_priority none = none := by
  refine ⟨by decide, by decide, by decide, rfl⟩

/-- Claim C4: the claim is right and `_create_vtodo` violates it.  The
update path stores integer-typed wire properties as decimal strings
(`_set_priority_safely`, `_validate_and_fix_vtodo_properties`), and the
code calls that contract CRITICAL, but new-task creation assigns
`vtodo.vtodo.add('priority').value = int(priority)` (caldav_client.py
512): the encoded record of a new task with priority 5 carries the raw
integer 5, not the string "5". -/
theorem C4_create_vtodo_serializes_priority_as_int :
    lookupProp (create_vtodo 7 "task" "u1" none none false (some 5)) "PRIORITY" =
      some (PropVal.pint 5) ∧
    lookupProp (create_vtodo 7 "task" "u1" none none false (some 5)) "PRIORITY" ≠
      some (PropVal.pstr "5") := by
  exact ⟨by decide, by decide⟩

/-- Claim C5 (counterexample): a pull over two wire records, one of
which fails to decode, reports `errors = 0` (the decode failure is not
counted in the returned statistics) and `total_fetched = 1` (the bad
record is dropped from every returned figure), with no database
failures involved. -/
theorem C5_decode_failure_invisible_counterexample :
    (sync_tasks_to_db_stats [some { uid := "a", parent_uid := none }, none]
        (fun _ => false) (fun _ => false)).errors = 0 ∧
    (sync_tasks_to_db_stats [some { uid := "a", parent_uid := none }, none]
        (fun _ => false) (fun _ => false)).total_fetched = 1 := by
  exact ⟨rfl, rfl⟩

/-- Claim C5 (amended): decode failures are skipped without aborting
the batch (every raw record is either decoded or counted by the local
`parse_errors` counter, which is only logged), `total_fetched` counts
only the successfully decoded records, and the returned `errors`
statistic counts only database failures. -/
theorem C5_pull_statistics (todos : List (Option TaskData))
    (existing dbFail : Uid → Bool) :
    (get_all_tasks todos).length + (get_all_tasks_impl todos).2 = todos.length ∧
    (sync_tasks_to_db_stats todos existing dbFail).total_fetched =
      (get_all_tasks todos).length ∧
    (sync_tasks_to_db_stats todos existing dbFail).errors =
      ((mkTaskMapData (get_all_tasks todos)).filter fun e => dbFail e.1).length := by
  refine ⟨get_all_tasks_impl_length todos, ?_, ?_⟩
  · unfold sync_tasks_to_db_stats
    by_cases h : (get_all_tasks todos).isEmpty
    · rw [if_pos h]
      rw [List.isEmpty_iff] at h
      rw [h]
      rfl
    · rw [if_neg h]
  · unfold sync_tasks_to_db_stats
    by_cases h : (get_all_tasks todos).isEmpty
    · rw [if_pos h]
      rw [List.isEmpty_iff] at h
      rw [h]
      rfl
    · rw [if_neg h]
      exact syncDbCounters_errors existing dbFail _

/-- Claim C8: with max_retries = 3 and base delay `base`, a wrapped
call that fails with a transient error on the first two invocations and
succeeds on the third is invoked exactly 3 times, sleeps `base * 2^0`
then `base * 2^1` before the retries, and returns the third call's
value. -/
theorem C8_retry_backoff {α : Type} (base : ℚ) (f : Nat → CallOutcome α)
    (m0 m1 : String) (v : α)
    (h0 : f 0 = CallOutcome.transient m0) (h1 : f 1 = CallOutcome.transient m1)
    (h2 : f 2 = CallOutcome.ok v) :
    retry_on_failure 3 base f = (Except.ok v, 3, [base, 2 * base]) := by
  have e2 : retryAux f base 1 2 = (Except.ok v, 1, []) := retryAux_ok h2
  have e1 : retryAux f base 2 1 = (Except.ok v, 2, [base * 2 ^ 1]) := by
    rw [retryAux_transient h1 one_ne_zero, e2]
  have e0 : retryAux f base 3 0 = (Except.ok v, 3, [base * 2 ^ 0, base * 2 ^ 1]) := by
    rw [retryAux_transient h0 (by norm_num), e1]
  unfold retry_on_failure
  rw [e0]
  norm_num [mul_comm]

/-- Witness for C8 at a concrete wrapped function and base delay 1:
three invocations, sleeps [1, 2], result 42. -/
theorem C8_retry_backoff_witness :
    retryTwiceThenOk 0 = CallOutcome.transient "connection reset" ∧
    retryTwiceThenOk 1 = CallOutcome.transient "connection reset" ∧
    retryTwiceThenOk 2 = CallOutcome.ok 42 ∧
    retry_on_failure 3 1 retryTwiceThenOk = (Except.ok 42, 3, [1, 2]) := by
  have h := C8_retry_backoff 1 retryTwiceThenOk "connection reset"
    "connection reset" 42 rfl rfl rfl
  norm_num at h
  exact ⟨rfl, rfl, rfl, h⟩

/-- Claim C9: in the completion slice of `CalDAVClient.update_task`,
for every well-formed record (at most one COMPLETED property, as on any
wire record), setting completed=true — in particular on an incomplete
record — encodes status COMPLETED, percent-complete as the string
"100" and a completion timestamp; setting completed=false — also on a
currently completed record — encodes percent-complete as the string
"0" and leaves no completion timestamp property. -/
theorem C9_completion_encoding (now : Nat) (vt : VTodo)
    (hone : countName vt "COMPLETED" ≤ 1) :
    (lookupProp (client_update_task_completion now true vt) "STATUS" =
        some (PropVal.pstr "COMPLETED") ∧
     lookupProp (client_update_task_completion now true vt) "PERCENT-COMPLETE" =
        some (PropVal.pstr "100") ∧
     lookupProp (client_update_task_completion now true vt) "COMPLETED" =
        some (PropVal.pdate now)) ∧
    (lookupProp (client_update_task_completion now false vt) "PERCENT-COMPLETE" =
        some (PropVal.pstr "0") ∧
     lookupProp (client_update_task_completion now false vt) "COMPLETED" = none) := by
  have htrue : client_update_task_completion now true vt =
      validate_and_fix_vtodo_properties
        (setPropFirst
          (removePropAll
              (setPropFirst (setPropFirst vt "STATUS" (PropVal.pstr "COMPLETED"))
                "COMPLETED" (PropVal.pdate now))
              "PERCENT-COMPLETE" ++ [("PERCENT-COMPLETE", PropVal.pstr "100")])
          "LAST-MODIFIED" (PropVal.pdate now)) := rfl
  have hfalse : client_update_task_completion now false vt =
      validate_and_fix_vtodo_properties
        (setPropFirst
          (removePropAll
              (if hasProp (setPropFirst vt "STATUS" (PropVal.pstr "NEEDS-ACTION"))
                  "COMPLETED" = true then
                removePropFirst (setPropFirst vt "STATUS" (PropVal.pstr "NEEDS-ACTION"))
                  "COMPLETED"
              else setPropFirst vt "STATUS" (PropVal.pstr "NEEDS-ACTION"))
              "PERCENT-COMPLETE" ++ [("PERCENT-COMPLETE", PropVal.pstr "0")])
          "LAST-MODIFIED" (PropVal.pdate now)) := rfl
  rw [htrue, hfalse]
  refine ⟨⟨?_, ?_, ?_⟩, ?_, ?_⟩
  · refine lookupProp_filterMap_some (v := PropVal.pstr "COMPLETED") (by decide) ?_
    rw [lookupProp_setPropFirst_other _ _ (by decide)]
    rw [lookupProp_append]
    rw [lookupProp_removePropAll_other _ (by decide)]
    rw [lookupProp_setPropFirst_other _ _ (by decide)]
    rw [lookupProp_setPropFirst_self]
  · refine lookupProp_filterMap_some (v := PropVal.pstr "100") (by decide) ?_
    rw [lookupProp_setPropFirst_other _ _ (by decide)]
    rw [lookupProp_append]
    rw [lookupProp_removePropAll_self]
    rfl
  · refine lookupProp_filterMap_some (v := PropVal.pdate now) rfl ?_
    rw [lookupProp_setPropFirst_other _ _ (by decide)]
    rw [lookupProp_append]
    rw [lookupProp_removePropAll_other _ (by decide)]
    rw [lookupProp_setPropFirst_self]
  · refine lookupProp_filterMap_some (v := PropVal.pstr "0") (by decide) ?_
    rw [lookupProp_setPropFirst_other _ _ (by decide)]
    rw [lookupProp_append]
    rw [lookupProp_removePropAll_self]
    rfl
  · apply lookupProp_filterMap_none
    rw [← countName_zero_iff]
    rw [countName_setPropFirst_other _ _ (by decide)]
    rw [countName_append]
    rw [countName_removePropAll_other _ (by decide)]
    have h2 : countName [("PERCENT-COMPLETE", PropVal.pstr "0")] "COMPLETED" = 0 := by
      decide
    rw [h2, Nat.add_zero]
    have hc1 : countName (setPropFirst vt "STATUS" (PropVal.pstr "NEEDS-ACTION"))
        "COMPLETED" ≤ 1 := by
      rw [countName_setPropFirst_other _ _ (by decide)]
      exact hone
    by_cases hhas : hasProp (setPropFirst vt "STATUS" (PropVal.pstr "NEEDS-ACTION"))
        "COMPLETED" = true
    · rw [if_pos hhas]
      exact countName_removePropFirst _ _ hc1
    · rw [if_neg hhas]
      exact countName_hasProp_false _ _ (by simpa using hhas)

/-- Witness for C9 at timestamp 5, on a concrete incomplete record and
on a concrete completed record (exercising the completed-to-incomplete
transition). -/
theorem C9_completion_encoding_witness :
    (countName vtodoIncomplete "COMPLETED" ≤ 1 ∧
     countName vtodoDone "COMPLETED" ≤ 1) ∧
    ((lookupProp (client_update_task_completion 5 true vtodoIncomplete) "STATUS" =
        some (PropVal.pstr "COMPLETED") ∧
      lookupProp (client_update_task_completion 5 true vtodoIncomplete)
          "PERCENT-COMPLETE" = some (PropVal.pstr "100") ∧
      lookupProp (client_update_task_completion 5 true vtodoIncomplete) "COMPLETED" =
        some (PropVal.pdate 5)) ∧
     (lookupProp (client_update_task_completion 5 false vtodoIncomplete)
          "PERCENT-COMPLETE" = some (PropVal.pstr "0") ∧
      lookupProp (client_update_task_completion 5 false vtodoIncomplete) "COMPLETED" =
        none)) ∧
    ((lookupProp (client_update_task_completion 5 false vtodoDone)
          "PERCENT-COMPLETE" = some (PropVal.pstr "0") ∧
      lookupProp (client_update_task_completion 5 false vtodoDone) "COMPLETED" =
        none)) := by
  exact ⟨⟨by decide, by decide⟩,
    C9_completion_encoding 5 vtodoIncomplete (by decide),
    (C9_completion_encoding 5 vtodoDone (by decide)).2⟩

/-- Claim C10: a creation request with priority 0 passes the HTTP
request validation (which only rejects priorities outside 0..9) but the
Task model validator only accepts 1..9, so the request ends in a 500
response with the transaction rolled back and no task persisted. -/
theorem C10_priority_zero_rejected_by_model (summary : String)
    (clientOutcome : Option (Except String String)) (freshUid : Uid)
    (h : pyStrip summary ≠ "") :
    api_priority_ok 0 = true ∧
    model_validate_priority (some 0) =
      Except.error "Priority must be between 1 and 9" ∧
    create_task_route summary (some 0) clientOutcome freshUid = (500, none) := by
  refine ⟨rfl, rfl, ?_⟩
  unfold create_task_route
  rw [if_neg h]
  show createTaskBody (pyStrip summary) (some 0) clientOutcome freshUid = (500, none)
  unfold createTaskBody
  rfl

/-- Witness for C10 at a concrete request. -/
theorem C10_priority_zero_rejected_by_model_witness :
    (pyStrip "Buy milk" ≠ "") ∧
    create_task_route "Buy milk" (some 0) none "u1" = (500, none) := by
  have h : pyStrip "Buy milk" ≠ "" := by decide
  exact ⟨h, (C10_priority_zero_rejected_by_model "Buy milk" none "u1" h).2.2⟩

end CaldavWeb
